import Mathlib

/-!
Verification development for the mcp-remote HTTP interceptor subsystem and its
coordination/proxy design.

Strings from the TypeScript source are modelled as `List Char` (UTF-16 code
units of the BMP correspond one-to-one to `Char` here; the inputs we reason
about are ASCII).  JavaScript's `new URL` is modelled by `parseURL` for
http(s) URLs written in lower case without userinfo, explicit default ports,
percent-encoding or dot segments; on other inputs the source's behaviour may
differ from the model, which is documented at each definition.

Each definition is translated from the corresponding source function:
  - `applyRequestHooks`, `applyResponseHooks`, `applyResponseTransformHooks`
    from src/lib/http/registry.ts
  - `parseHeaders`, `redactResponseHeaders`, `isOAuthRelated`
    from src/lib/http/utils.ts
  - `defaultOAuthUrlFixer` from src/lib/hooks/oauth-url-fixer.ts
  - `default405To404Transform` from src/lib/hooks/transform-405-to-404.ts
  - `interceptedFetch` (the closure installed by `installHttpInterceptor`)
    from src/lib/http/interceptor.ts
JavaScript exceptions thrown by user hooks are modelled by `HookOutcome.threw`;
the registry catches them.  Definitions marked `Modelled from the spec:` embed
repository components that are not part of the provided sources.
-/

/-- Strings of the source are modelled as lists of characters. -/
abbrev Str := List Char

/-- JavaScript `String.prototype.toLowerCase` (ASCII fragment). -/
def toLowerStr (s : Str) : Str := s.map Char.toLower

/-- JavaScript `String.prototype.includes`: `pat` occurs somewhere in `s`. -/
def hasSubstr (s pat : Str) : Bool :=
  match s with
  | [] => pat.isEmpty
  | _ :: t => pat.isPrefixOf s || hasSubstr t pat

/-- Split `s` around the first occurrence of `pat`, returning the part before
the occurrence and the part after it; `none` when `pat` does not occur.
Models the position search of `String.prototype.match` for a literal. -/
def splitAtSubstr? (s pat : Str) : Option (Str × Str) :=
  match s with
  | [] => if pat.isEmpty then some ([], []) else none
  | c :: t =>
    if pat.isPrefixOf s then some ([], s.drop pat.length)
    else (splitAtSubstr? t pat).map (fun p => (c :: p.1, p.2))

/-- Index of the last occurrence of character `c`, as in
JavaScript `String.prototype.lastIndexOf` (with `none` for -1). -/
def lastIdx (c : Char) : Str → Option Nat
  | [] => none
  | a :: t =>
    match lastIdx c t with
    | some k => some (k + 1)
    | none => if a = c then some 0 else none

/-- Model of a parsed WHATWG URL, holding the fields the source reads. -/
structure JsURL where
  scheme : Str
  host : Str
  pathname : Str
  search : Str
deriving DecidableEq

/-- Model of JavaScript `new URL` for plain http(s) URLs: scheme then
authority up to the first `/`, `?` or `#`, then pathname, query and a
discarded fragment.  Userinfo, default-port elision, percent-encoding,
case normalisation and dot-segment resolution are outside the model.
Returns `none` where `new URL` throws. -/
def parseURL (s : Str) : Option JsURL :=
  let schemeRest : Option (Str × Str) :=
    if ("https://".data).isPrefixOf s then some ("https".data, s.drop 8)
    else if ("http://".data).isPrefixOf s then some ("http".data, s.drop 7)
    else none
  match schemeRest with
  | none => none
  | some (scheme, rest) =>
    let host := rest.takeWhile (fun c => !(c == '/' || c == '?' || c == '#'))
    if host.isEmpty then none
    else
      let afterHost := rest.drop host.length
      let noFrag := afterHost.takeWhile (fun c => !(c == '#'))
      let path := noFrag.takeWhile (fun c => !(c == '?'))
      let query := noFrag.drop path.length
      some { scheme := scheme
             host := host
             pathname := if path.isEmpty then ['/'] else path
             search := if query.length ≤ 1 then [] else query }

/-- JavaScript `URL.prototype.origin` for the modelled http(s) URLs. -/
def JsURL.origin (u : JsURL) : Str := u.scheme ++ "://".data ++ u.host

/-- Decimal rendering of a JavaScript array index, as produced by
`Object.entries` on an array. -/
def natToStr (n : Nat) : Str := (Nat.repr n).data

/-- A JavaScript value stored in the parsed-headers record: the source
declares `Record<string, string>`, but feeding the `string[][]` form of
`HeadersInit` through `Object.entries` stores the row arrays themselves as
values. -/
inductive JsValue where
  | str (s : Str)
  | arr (row : List Str)
deriving DecidableEq

/-- The three runtime shapes of a fetch `HeadersInit`: a `Headers` instance
(iterated by `forEach`; the class lower-cases names on iteration), a plain
`Record<string, string>`, and the `string[][]` array form (whose rows are
key/value pairs).  The source distinguishes only `instanceof Headers` from
`typeof === 'object'`; records and arrays both take the `Object.entries`
path. -/
inductive HeadersInit where
  | headersObj (entries : List (Str × Str))
  | record (entries : List (Str × Str))
  | array (rows : List (Str × Str))
deriving DecidableEq

/-- Request context handed to request hooks (src/lib/http/types.ts). -/
structure HttpRequestContext where
  url : Str
  method : Str
  headers : List (Str × JsValue)
  originalServerUrl : Option Str
  isOAuthRelated : Bool

/-- Model of a fetch `Response`, with the fields the source reads.  The body
is opaque payload data. -/
structure Response where
  status : Nat
  statusText : Str
  headers : List (Str × Str)
  body : Str
deriving DecidableEq

/-- Response context handed to response hooks (src/lib/http/types.ts). -/
structure HttpResponseContext where
  url : Str
  method : Str
  headers : List (Str × JsValue)
  originalServerUrl : Option Str
  isOAuthRelated : Bool
  response : Response
  status : Nat
  statusText : Str
  responseHeaders : List (Str × Str)
  durationMs : Nat

/-- Result of invoking a user-supplied hook: it either returns a value or
throws a JavaScript exception (which the registry catches). -/
inductive HookOutcome (α : Type) where
  | ok (val : α)
  | threw
deriving DecidableEq

/-- A request hook returns a replacement URL, `null`, or throws. -/
abbrev RequestHook := HttpRequestContext → HookOutcome (Option Str)

/-- A response hook observes the response context (or throws). -/
abbrev ResponseHook := HttpResponseContext → HookOutcome Unit

/-- A response transform hook returns a replacement `Response`, `null`,
or throws. -/
abbrev ResponseTransformHook := HttpResponseContext → HookOutcome (Option Response)

/-- One iteration of the loop in `applyRequestHooks` (registry.ts:42-52):
the hook sees the context with the current URL; a thrown error is caught; a
falsy result (null or the empty string) or the unchanged URL keeps the
current URL. -/
def requestHookStep (context : HttpRequestContext) (currentUrl : Str)
    (hook : RequestHook) : Str :=
  match hook { context with url := currentUrl } with
  | .ok (some modifiedUrl) =>
    if modifiedUrl ≠ [] ∧ modifiedUrl ≠ currentUrl then modifiedUrl else currentUrl
  | .ok none => currentUrl
  | .threw => currentUrl

/-- `applyRequestHooks` (registry.ts:39-55): fold the registered request
hooks over the URL in registration order. -/
def applyRequestHooks (hooks : List RequestHook) (context : HttpRequestContext) : Str :=
  hooks.foldl (requestHookStep context) context.url

/-- `applyResponseHooks` (registry.ts:57-65): invoke every response hook in
order on the same context, catching errors.  The returned list records the
outcome of each invocation (the source returns void; invocation order and
the fact that every hook runs are the observable content of the loop). -/
def applyResponseHooks (hooks : List ResponseHook) (context : HttpResponseContext) :
    List (HookOutcome Unit) :=
  hooks.map (fun hook => hook context)

/-- Redaction applied to response headers, both in `redactResponseHeaders`
(utils.ts:33-39) and to transformed responses (registry.ts:74-78). -/
def redactResponseHeaders (headers : List (Str × Str)) : List (Str × Str) :=
  headers.map (fun kv =>
    (kv.1,
     if toLowerStr kv.1 = "set-cookie".data ∨ toLowerStr kv.1 = "authorization".data
     then "[REDACTED]".data else kv.2))

/-- One iteration of the loop in `applyResponseTransformHooks`
(registry.ts:70-93): a non-null response different from the current one
replaces it and updates status, statusText and redacted headers; errors are
caught and ignored. -/
def transformStep (current : HttpResponseContext) (hook : ResponseTransformHook) :
    HttpResponseContext :=
  match hook current with
  | .ok (some maybe) =>
    if maybe ≠ current.response then
      { current with
        response := maybe
        status := maybe.status
        statusText := maybe.statusText
        responseHeaders := redactResponseHeaders maybe.headers }
    else current
  | .ok none => current
  | .threw => current

/-- `applyResponseTransformHooks` (registry.ts:67-96). -/
def applyResponseTransformHooks (hooks : List ResponseTransformHook)
    (context : HttpResponseContext) : HttpResponseContext :=
  hooks.foldl transformStep context

/-- `isOAuthRelated` (utils.ts:3-13). -/
def isOAuthRelated (url : Str) : Bool :=
  hasSubstr url "/.well-known/oauth-".data ||
  hasSubstr url "/.well-known/openid-configuration".data ||
  hasSubstr url "/authorize".data ||
  hasSubstr url "/token".data ||
  hasSubstr url "/register".data ||
  hasSubstr url "oauth2/v1/clients".data ||
  hasSubstr url "scope=".data

/-- `parseHeaders` (utils.ts:15-31).  A `Headers` instance is iterated by
`forEach`; any other object — a plain record or the `string[][]` array form
— goes through `Object.entries`.  For the named-key forms every entry is
mapped, replacing the value of any key whose lower-case form is
`authorization` with `[REDACTED]`.  For the array form `Object.entries`
yields decimal index keys ("0", "1", …) whose values are the row arrays
themselves, so the `authorization` comparison is made against the index and
the row — key and value included — is stored unredacted.  (Duplicate keys
cannot occur in a `Headers` object; for plain records the later entry wins
in the source, which the list model keeps as separate entries.) -/
def parseHeaders (headers : Option HeadersInit) : List (Str × JsValue) :=
  match headers with
  | none => []
  | some (.headersObj entries) =>
    entries.map (fun kv =>
      (kv.1,
       if toLowerStr kv.1 = "authorization".data then JsValue.str ("[REDACTED]".data)
       else JsValue.str kv.2))
  | some (.record entries) =>
    entries.map (fun kv =>
      (kv.1,
       if toLowerStr kv.1 = "authorization".data then JsValue.str ("[REDACTED]".data)
       else JsValue.str kv.2))
  | some (.array rows) =>
    rows.enum.map (fun p =>
      (natToStr p.1,
       if toLowerStr (natToStr p.1) = "authorization".data then JsValue.str ("[REDACTED]".data)
       else JsValue.arr [p.2.1, p.2.2]))

/-- The literal `/.well-known/oauth-authorization-server`. -/
def wkSuffix : Str := "/.well-known/oauth-authorization-server".data

/-- The regex of oauth-url-fixer.ts:47-49, anchored at both ends:
`^(https?://[^/]+)/\.well-known/oauth-authorization-server/(.+)/\.well-known/oauth-authorization-server$`.
Returns the captures (scheme with domain, server path).  The greedy middle
capture takes everything between the fixed prefix and the fixed suffix; `.`
does not match line terminators, modelled for `\n` and `\r`. -/
def matchDoubleWellKnown (url : Str) : Option (Str × Str) :=
  let scheme? : Option Str :=
    if ("https://".data).isPrefixOf url then some ("https://".data)
    else if ("http://".data).isPrefixOf url then some ("http://".data)
    else none
  match scheme? with
  | none => none
  | some sch =>
    let rest := url.drop sch.length
    let domain := rest.takeWhile (fun c => !(c == '/'))
    if domain.isEmpty then none
    else
      let afterDomain := rest.drop domain.length
      let mid := wkSuffix ++ ['/']
      if mid.isPrefixOf afterDomain then
        let tail := afterDomain.drop mid.length
        if wkSuffix.isSuffixOf tail then
          let serverPath := tail.take (tail.length - wkSuffix.length)
          if serverPath.isEmpty || serverPath.any (fun c => c == '\n' || c == '\r')
          then none
          else some (sch ++ domain, serverPath)
        else none
      else none

/-- First branch of `defaultOAuthUrlFixer` (oauth-url-fixer.ts:45-59): fix
URLs with a double `.well-known/oauth-authorization-server`.  `none` means
the branch does not fire and control falls through. -/
def fixDouble (url : Str) : Option Str :=
  if hasSubstr url (wkSuffix ++ ['/']) ∧ wkSuffix.isSuffixOf url then
    match matchDoubleWellKnown url with
    | some (domain, serverPath) => some (domain ++ ['/'] ++ serverPath ++ wkSuffix)
    | none => none
  else none

/-- The capture of `url.match(/\/(\.well-known\/[^?#]*)/)`
(oauth-url-fixer.ts:66-68): from the first `/.well-known/` on, up to the
first `?` or `#`. -/
def wellKnownTail? (url : Str) : Option Str :=
  match splitAtSubstr? url "/.well-known/".data with
  | some (_, after) =>
    some (".well-known/".data ++ after.takeWhile (fun c => !(c == '?' || c == '#')))
  | none => none

/-- Gateway path computation (oauth-url-fixer.ts:70-76): the original server
URL's path with a trailing slash removed and the last segment dropped;
empty when the last slash is at position 0 or absent. -/
def gatewayOfServerPath (pathname : Str) : Str :=
  let serverPath := if pathname.getLast? = some '/' then pathname.dropLast else pathname
  match lastIdx '/' serverPath with
  | some k => if 0 < k then serverPath.take k else []
  | none => []

/-- Second branch of `defaultOAuthUrlFixer` (oauth-url-fixer.ts:61-87):
relocate a same-origin discovery URL under the gateway path, keeping the
request's query string. -/
def fixSameOriginDiscovery (originalUrl requestUrl : JsURL) (url : Str) : Option Str :=
  if requestUrl.origin = originalUrl.origin ∧
     (hasSubstr url "/.well-known/oauth-".data ∨
      hasSubstr url "/.well-known/openid-configuration".data) then
    match wellKnownTail? url with
    | some wellKnownPath =>
      let fixed := originalUrl.origin ++ gatewayOfServerPath originalUrl.pathname
        ++ ['/'] ++ wellKnownPath ++ requestUrl.search
      if fixed ≠ url then some fixed else none
    | none => none
  else none

/-- The regex of oauth-url-fixer.ts:91, anchored at both ends:
`^(https?://[^/]+)/\.well-known/oauth-authorization-server/(.+)$`. -/
def matchCrossDomain (url : Str) : Option (Str × Str) :=
  let scheme? : Option Str :=
    if ("https://".data).isPrefixOf url then some ("https://".data)
    else if ("http://".data).isPrefixOf url then some ("http://".data)
    else none
  match scheme? with
  | none => none
  | some sch =>
    let rest := url.drop sch.length
    let domain := rest.takeWhile (fun c => !(c == '/'))
    if domain.isEmpty then none
    else
      let afterDomain := rest.drop domain.length
      let mid := wkSuffix ++ ['/']
      if mid.isPrefixOf afterDomain then
        let tail := afterDomain.drop mid.length
        if tail.isEmpty || tail.any (fun c => c == '\n' || c == '\r') then none
        else some (sch ++ domain, tail)
      else none

/-- Third branch of `defaultOAuthUrlFixer` (oauth-url-fixer.ts:89-107): fix
cross-domain authorization server URLs.  `authServerPath.split('/')[0] || ''`
is the segment before the first slash. -/
def fixCrossDomain (url : Str) : Option Str :=
  if hasSubstr url (wkSuffix ++ ['/']) ∧ ¬(wkSuffix.isSuffixOf url = true) then
    match matchCrossDomain url with
    | some (domain, authServerPath) =>
      let gatewayPath :=
        match lastIdx '/' authServerPath with
        | some k => if 0 < k then authServerPath.take k
                    else authServerPath.takeWhile (fun c => !(c == '/'))
        | none => authServerPath.takeWhile (fun c => !(c == '/'))
      let fixed :=
        if gatewayPath.isEmpty then domain ++ wkSuffix
        else domain ++ ['/'] ++ gatewayPath ++ wkSuffix
      if fixed ≠ url then some fixed else none
    | none => none
  else none

/-- Fourth branch of `defaultOAuthUrlFixer` (oauth-url-fixer.ts:109-118):
fix same-domain registration URLs. -/
def fixRegister (originalUrl requestUrl : JsURL) (url : Str) : Option Str :=
  if requestUrl.origin = originalUrl.origin ∧ ("/register".data).isSuffixOf url then
    let fixed := originalUrl.origin ++ originalUrl.pathname ++ "register".data
      ++ requestUrl.search
    if fixed ≠ url then some fixed else none
  else none

/-- `defaultOAuthUrlFixer` (oauth-url-fixer.ts:35-126).  `nofix` is the
truthiness of the environment variable `MCP_REMOTE_NOFIX`.  A missing or
empty `originalServerUrl` is falsy and yields `null`, as does a URL-parsing
exception (the catch clause); otherwise the four fix branches run in source
order, each falling through when it does not return. -/
def defaultOAuthUrlFixer (nofix : Bool) (context : HttpRequestContext) : Option Str :=
  match context.originalServerUrl with
  | none => none
  | some osu =>
    if osu.isEmpty then none
    else if nofix then none
    else
      match parseURL osu, parseURL context.url with
      | some originalUrl, some requestUrl =>
        match fixDouble context.url with
        | some fixed => some fixed
        | none =>
          match fixSameOriginDiscovery originalUrl requestUrl context.url with
          | some fixed => some fixed
          | none =>
            match fixCrossDomain context.url with
            | some fixed => some fixed
            | none => fixRegister originalUrl requestUrl context.url
      | _, _ => none

/-- The fixer as registered by `installOAuthUrlFixer`
(default-install.ts:10-15); it never throws (it has its own try/catch). -/
def oauthUrlFixerHook (nofix : Bool) : RequestHook :=
  fun context => .ok (defaultOAuthUrlFixer nofix context)

/-- `default405To404Transform` (transform-405-to-404.ts:3-12). -/
def default405To404Transform (ctx : HttpResponseContext) : Option Response :=
  if ctx.status = 405 then
    some { status := 404
           statusText := "Not Found".data
           headers := ctx.response.headers
           body := ctx.response.body }
  else none

/-- The transform as registered by `install405To404Transform`
(default-install.ts:24-28); it never throws. -/
def transform405Hook : ResponseTransformHook :=
  fun ctx => .ok (default405To404Transform ctx)

/-- Model of a fetch `RequestInit`, with the fields the interceptor reads. -/
structure RequestInit where
  method : Option Str := none
  headers : Option HeadersInit := none

/-- `init?.method || 'GET'` (interceptor.ts:21): a missing init, missing
method, or empty string gives GET. -/
def methodOf (init : Option RequestInit) : Str :=
  match init with
  | some i =>
    match i.method with
    | some m => if m.isEmpty then "GET".data else m
    | none => "GET".data
  | none => "GET".data

/-- The request context the interceptor builds (interceptor.ts:20-31). -/
def mkRequestContext (originalServerUrl : Option Str) (originalUrl : Str)
    (init : Option RequestInit) : HttpRequestContext :=
  { url := originalUrl
    method := methodOf init
    headers := parseHeaders (init.bind RequestInit.headers)
    originalServerUrl := originalServerUrl
    isOAuthRelated := isOAuthRelated originalUrl }

/-- The value the interceptor passes to the underlying fetch
(interceptor.ts:33-34): the rewritten URL when the hooks changed it,
otherwise the original input object. -/
def networkInput {Input : Type} (toStr : Input → Str) (requestHooks : List RequestHook)
    (originalServerUrl : Option Str) (input : Input) (init : Option RequestInit) :
    Input ⊕ Str :=
  let originalUrl := toStr input
  let finalUrl := applyRequestHooks requestHooks
    (mkRequestContext originalServerUrl originalUrl init)
  if finalUrl ≠ originalUrl then .inr finalUrl else .inl input

/-- The intercepted fetch installed by `installHttpInterceptor`
(interceptor.ts:19-67).  `Input` is the type of the caller's request input
(`RequestInfo | URL`), observed only through `toStr` (its `toString`);
`originalFetch` is the saved underlying fetch, which may reject (`Except`);
`durationMs` abstracts the wall-clock timing of the call.  A rejection of
the underlying fetch is logged and rethrown (interceptor.ts:61-66). -/
def interceptedFetch {Input ε : Type} (toStr : Input → Str)
    (requestHooks : List RequestHook) (transformHooks : List ResponseTransformHook)
    (responseHooks : List ResponseHook) (originalServerUrl : Option Str)
    (originalFetch : Input ⊕ Str → Option RequestInit → Except ε Response)
    (durationMs : Nat) (input : Input) (init : Option RequestInit) : Except ε Response :=
  let originalUrl := toStr input
  let requestContext := mkRequestContext originalServerUrl originalUrl init
  let finalUrl := applyRequestHooks requestHooks requestContext
  match originalFetch (networkInput toStr requestHooks originalServerUrl input init) init with
  | .error e => .error e
  | .ok response =>
    let responseContext : HttpResponseContext :=
      { url := finalUrl
        method := requestContext.method
        headers := requestContext.headers
        originalServerUrl := requestContext.originalServerUrl
        isOAuthRelated := requestContext.isOAuthRelated
        response := response
        status := response.status
        statusText := response.statusText
        responseHeaders := redactResponseHeaders response.headers
        durationMs := durationMs }
    let finalResponseContext := applyResponseTransformHooks transformHooks responseContext
    let _invoked := applyResponseHooks responseHooks finalResponseContext
    .ok finalResponseContext.response

/-- Modelled from the spec: phases of one local process running
`ensureAuthorized` (spec section 4.1; the implementing coordination module is
not among the provided sources).  A process starts, then either holds the
lock and runs the browser-based interactive flow, or waits polling the
credential store; it finishes either having performed the interactive flow
or having read the token another process stored. -/
inductive ProcPhase where
  | start
  | interactive
  | waiting
  | doneInteractive
  | doneFromStore
deriving DecidableEq

/-- Modelled from the spec: the cross-process state for one server — the
per-process phases, the advisory lock file holder, and whether a TokenSet
has been persisted to the credential store (spec sections 4.1 and 5). -/
structure CoordState (n : Nat) where
  proc : Fin n → ProcPhase
  lock : Option (Fin n)
  tokenStored : Bool

/-- Modelled from the spec: all processes about to authenticate against an
uninitialized server — no lock held, no token stored. -/
def initialCoordState (n : Nat) : CoordState n :=
  { proc := fun _ => .start, lock := none, tokenStored := false }

/-- Modelled from the spec: interleaved small-step transitions of the
authorization coordination (spec section 4.1).  `acquire`: a starting
process takes the free lock and begins the interactive flow (idempotence of
`ensureAuthorized` means a process with a stored token never starts a flow,
hence the `tokenStored = false` guard).  `lockBusy`: a starting process
finds the lock held and polls the store.  `fastPath`: a starting process
finds a stored token and returns it.  `finish`: the flow's owner persists
the TokenSet and then releases the lock (spec step 4 persists before
releasing).  `observe`: a polling process sees the stored token. -/
inductive CoordStep {n : Nat} : CoordState n → CoordState n → Prop where
  | acquire (s : CoordState n) (i : Fin n) :
      s.proc i = .start → s.lock = none → s.tokenStored = false →
      CoordStep s { s with proc := fun j => if j = i then .interactive else s.proc j
                           lock := some i }
  | lockBusy (s : CoordState n) (i j : Fin n) :
      s.proc i = .start → s.lock = some j →
      CoordStep s { s with proc := fun k => if k = i then .waiting else s.proc k }
  | fastPath (s : CoordState n) (i : Fin n) :
      s.proc i = .start → s.tokenStored = true →
      CoordStep s { s with proc := fun k => if k = i then .doneFromStore else s.proc k }
  | finish (s : CoordState n) (i : Fin n) :
      s.proc i = .interactive →
      CoordStep s { proc := fun k => if k = i then .doneInteractive else s.proc k
                    lock := none
                    tokenStored := true }
  | observe (s : CoordState n) (i : Fin n) :
      s.proc i = .waiting → s.tokenStored = true →
      CoordStep s { s with proc := fun k => if k = i then .doneFromStore else s.proc k }

/-- States reachable from the uninitialized-server start by interleaving. -/
inductive CoordReachable {n : Nat} : CoordState n → Prop where
  | init : CoordReachable (initialCoordState n)
  | step {s t : CoordState n} : CoordReachable s → CoordStep s t → CoordReachable t

/-- Modelled from the spec: the inductive invariant of the coordination
system — the lock holder is exactly the process running the interactive
flow, the interactive flow only runs before a token is stored, a token is
stored exactly when some process finished the interactive flow, at most one
process ever finishes interactively, and reading from the store requires a
stored token. -/
def CoordInv {n : Nat} (s : CoordState n) : Prop :=
  (∀ i, s.proc i = .interactive → s.lock = some i ∧ s.tokenStored = false) ∧
  (∀ i, s.lock = some i → s.proc i = .interactive) ∧
  (s.tokenStored = true ↔ ∃ i, s.proc i = .doneInteractive) ∧
  (∀ i j, s.proc i = .doneInteractive → s.proc j = .doneInteractive → i = j) ∧
  (∀ i, s.proc i = .doneFromStore → s.tokenStored = true)

/-- Modelled from the spec: a JSON-RPC style message flowing through the
bidirectional proxy (spec section 3, Message).  `fields` carries the
remaining envelope/params entries the proxy does not interpret. -/
structure ProxyMessage where
  id : Option Nat
  method : Option Str
  fields : List (Str × Str)
deriving DecidableEq

/-- Modelled from the spec: the proxy recognises the local side's
initialization/client-info message by its method. -/
def isInitMessage (m : ProxyMessage) : Bool :=
  decide (m.method = some ("initialize".data))

/-- Modelled from the spec: the proxy identity metadata added to the
initialization message so the remote can distinguish proxied clients. -/
def proxyMetadata : List (Str × Str) :=
  [("proxiedBy".data, "mcp-remote".data)]

/-- Modelled from the spec: augmentation keeps every original field and
appends the proxy identity metadata (spec section 4.4). -/
def augmentClientInfo (m : ProxyMessage) : ProxyMessage :=
  { m with fields := m.fields ++ proxyMetadata }

/-- Modelled from the spec: the local-to-remote direction of the bridge —
messages are forwarded verbatim in order, except the first initialization
message, which is forwarded augmented (spec sections 4.4 and 8; the
implementing `mcpProxy` is not among the provided sources). -/
def forwardLocalMessages : List ProxyMessage → List ProxyMessage
  | [] => []
  | m :: rest =>
    if isInitMessage m then augmentClientInfo m :: rest
    else m :: forwardLocalMessages rest

/-- Modelled from the spec: the remote-to-local direction forwards every
message verbatim. -/
def forwardRemoteMessages (msgs : List ProxyMessage) : List ProxyMessage := msgs

theorem isPrefixOf_self_append (l t : Str) : l.isPrefixOf (l ++ t) = true :=
  List.isPrefixOf_iff_prefix.mpr (List.prefix_append l t)

theorem isSuffixOf_append_self (l t : Str) : l.isSuffixOf (t ++ l) = true := by
  show (l.reverse.isPrefixOf (t ++ l).reverse) = true
  rw [List.reverse_append]
  exact isPrefixOf_self_append _ _

theorem https_not_prefix_of_http (t : Str) :
    ("https://".data).isPrefixOf ("http://".data ++ t) = false := rfl

theorem takeWhile_append_cons (p : Char → Bool) (l : Str) (c : Char) (r : Str)
    (hl : ∀ x ∈ l, p x = true) (hc : p c = false) :
    (l ++ c :: r).takeWhile p = l := by
  induction l with
  | nil => simp [List.takeWhile_cons, hc]
  | cons a as ih =>
    have ha : p a = true := hl a (by simp)
    simp only [List.cons_append, List.takeWhile_cons, ha, if_true]
    rw [ih (fun x hx => hl x (by simp [hx]))]

theorem hasSubstr_of_append (pre pat post : Str) :
    hasSubstr (pre ++ (pat ++ post)) pat = true := by
  induction pre with
  | nil =>
    cases h : pat ++ post with
    | nil =>
      have : pat = [] := by
        cases pat with
        | nil => rfl
        | cons a as => simp at h
      simp [hasSubstr, this]
    | cons a t =>
      simp only [List.nil_append, hasSubstr]
      rw [← h, isPrefixOf_self_append]
      simp
  | cons a as ih =>
    simp only [List.cons_append, hasSubstr, List.append_eq]
    rw [ih]
    simp

theorem any_newline_false (l : Str) (h : ∀ c ∈ l, c ≠ '\n' ∧ c ≠ '\r') :
    (l.any (fun c => c == '\n' || c == '\r')) = false := by
  rw [← Bool.not_eq_true, List.any_eq_true]
  rintro ⟨x, hx, hb⟩
  rcases Bool.or_eq_true_iff.mp hb with hb | hb
  · exact (h x hx).1 (by simpa using hb)
  · exact (h x hx).2 (by simpa using hb)

theorem isEmpty_false_of_ne_nil {l : Str} (h : l ≠ []) : l.isEmpty = false := by
  cases l with
  | nil => exact absurd rfl h
  | cons a as => rfl

theorem notSlash_of_ne {c : Char} (h : c ≠ '/') : (!(c == '/')) = true := by
  simp [h]

theorem parseURL_ne_nil {u : JsURL} (h : parseURL [] = some u) : False := by
  simp [parseURL] at h

theorem notSep_of_ne {c : Char} (h1 : c ≠ '/') (h2 : c ≠ '?') (h3 : c ≠ '#') :
    (!(c == '/' || c == '?' || c == '#')) = true := by simp [h1, h2, h3]

theorem parse_some_ne_nil {s : Str} {u : JsURL} (h : parseURL s = some u) :
    s.isEmpty = false := by
  cases s with
  | nil => exact absurd h (by simp [parseURL])
  | cons a t => rfl

theorem matchDoubleWellKnown_eval (sch domain serverPath : Str)
    (hsch : sch = "http://".data ∨ sch = "https://".data)
    (hdom : domain ≠ []) (hdomc : ∀ c ∈ domain, c ≠ '/')
    (hsp : serverPath ≠ []) (hspc : ∀ c ∈ serverPath, c ≠ '\n' ∧ c ≠ '\r') :
    matchDoubleWellKnown (sch ++ (domain ++ ((wkSuffix ++ ['/']) ++ (serverPath ++ wkSuffix))))
      = some (sch ++ domain, serverPath) := by
  have hmid : ∀ Z : Str, (wkSuffix ++ ['/']) ++ Z
      = '/' :: (".well-known/oauth-authorization-server/".data ++ Z) := fun Z => rfl
  have htake : ∀ (rest : Str), (domain ++ ((wkSuffix ++ ['/']) ++ rest)).takeWhile (fun c => !(c == '/')) = domain := by
    intro rest
    rw [hmid]
    exact takeWhile_append_cons _ _ _ _ (fun x hx => notSlash_of_ne (hdomc x hx)) (by simp)
  have hemp : domain.isEmpty = false := isEmpty_false_of_ne_nil hdom
  have hpre : (wkSuffix ++ ['/']).isPrefixOf ((wkSuffix ++ ['/']) ++ (serverPath ++ wkSuffix)) = true :=
    isPrefixOf_self_append _ _
  have hsuf : wkSuffix.isSuffixOf (serverPath ++ wkSuffix) = true := isSuffixOf_append_self _ _
  have hlen : (serverPath ++ wkSuffix).length - wkSuffix.length = serverPath.length := by
    simp [List.length_append]
  have hspe : serverPath.isEmpty = false := isEmpty_false_of_ne_nil hsp
  have hany : (serverPath.any (fun c => c == '\n' || c == '\r')) = false := any_newline_false _ hspc
  rcases hsch with h | h <;> subst h
  · have h1 : ("https://".data).isPrefixOf ("http://".data ++ (domain ++ ((wkSuffix ++ ['/']) ++ (serverPath ++ wkSuffix)))) = false :=
      https_not_prefix_of_http _
    have h2 : ("http://".data).isPrefixOf ("http://".data ++ (domain ++ ((wkSuffix ++ ['/']) ++ (serverPath ++ wkSuffix)))) = true :=
      isPrefixOf_self_append _ _
    simp only [matchDoubleWellKnown, h1, h2, Bool.false_eq_true, if_false, if_true,
      List.drop_left, htake, hemp, hpre, hsuf, hlen, hspe, hany, Bool.or_self,
      List.take_left]
  · have h2 : ("https://".data).isPrefixOf ("https://".data ++ (domain ++ ((wkSuffix ++ ['/']) ++ (serverPath ++ wkSuffix)))) = true :=
      isPrefixOf_self_append _ _
    simp only [matchDoubleWellKnown, h2, Bool.false_eq_true, if_false, if_true,
      List.drop_left, htake, hemp, hpre, hsuf, hlen, hspe, hany, Bool.or_self,
      List.take_left]

theorem parseURL_isSome (sch domain rest : Str)
    (hsch : sch = "http://".data ∨ sch = "https://".data)
    (hdom : domain ≠ []) (hdomc : ∀ c ∈ domain, c ≠ '/' ∧ c ≠ '?' ∧ c ≠ '#') :
    (parseURL (sch ++ (domain ++ '/' :: rest))).isSome = true := by
  have htake : (domain ++ '/' :: rest).takeWhile (fun c => !(c == '/' || c == '?' || c == '#')) = domain :=
    takeWhile_append_cons _ _ _ _
      (fun x hx => notSep_of_ne (hdomc x hx).1 (hdomc x hx).2.1 (hdomc x hx).2.2) (by simp)
  have hemp : domain.isEmpty = false := isEmpty_false_of_ne_nil hdom
  rcases hsch with h | h <;> subst h
  · have h1 : ("https://".data).isPrefixOf ("http://".data ++ (domain ++ '/' :: rest)) = false :=
      https_not_prefix_of_http _
    have h2 : ("http://".data).isPrefixOf ("http://".data ++ (domain ++ '/' :: rest)) = true :=
      isPrefixOf_self_append _ _
    have h3 : ("http://".data ++ (domain ++ '/' :: rest)).drop 7 = domain ++ '/' :: rest :=
      List.drop_left "http://".data (domain ++ '/' :: rest)
    simp only [parseURL, h1, h2, h3, Bool.false_eq_true, if_false, if_true, htake, hemp,
      Option.isSome_some]
  · have h2 : ("https://".data).isPrefixOf ("https://".data ++ (domain ++ '/' :: rest)) = true :=
      isPrefixOf_self_append _ _
    have h3 : ("https://".data ++ (domain ++ '/' :: rest)).drop 8 = domain ++ '/' :: rest :=
      List.drop_left "https://".data (domain ++ '/' :: rest)
    simp only [parseURL, h2, h3, Bool.false_eq_true, if_false, if_true, htake, hemp,
      Option.isSome_some]

theorem coordInv_init (n : Nat) : CoordInv (initialCoordState n) := by
  refine ⟨?_, ?_, ?_, ?_, ?_⟩ <;> simp [initialCoordState]

theorem coordInv_step {n : Nat} {s t : CoordState n} (hinv : CoordInv s)
    (hstep : CoordStep s t) : CoordInv t := by
  obtain ⟨h1, h2, h3, h4, h5⟩ := hinv
  cases hstep with
  | acquire i hstart hlock hstore =>
    refine ⟨?_, ?_, ?_, ?_, ?_⟩
    · intro j hj
      dsimp only at hj ⊢
      by_cases hji : j = i
      · subst hji
        exact ⟨rfl, hstore⟩
      · rw [if_neg hji] at hj
        have := (h1 j hj).1
        rw [hlock] at this
        exact absurd this (by simp)
    · intro j hj
      dsimp only at hj ⊢
      have hji : i = j := Option.some.inj hj
      subst hji
      simp
    · dsimp only
      rw [hstore]
      constructor
      · intro h
        exact absurd h (by simp)
      · rintro ⟨j, hj⟩
        by_cases hji : j = i
        · subst hji
          simp at hj
        · rw [if_neg hji] at hj
          have := h3.mpr ⟨j, hj⟩
          rw [hstore] at this
          exact absurd this (by simp)
    · intro j k hj hk
      dsimp only at hj hk
      by_cases hji : j = i
      · subst hji; simp at hj
      · by_cases hki : k = i
        · subst hki; simp at hk
        · rw [if_neg hji] at hj
          rw [if_neg hki] at hk
          exact h4 j k hj hk
    · intro j hj
      dsimp only at hj ⊢
      by_cases hji : j = i
      · subst hji; simp at hj
      · rw [if_neg hji] at hj
        exact h5 j hj
  | lockBusy i j hstart hlock =>
    refine ⟨?_, ?_, ?_, ?_, ?_⟩
    · intro k hk
      dsimp only at hk ⊢
      by_cases hki : k = i
      · subst hki; simp at hk
      · rw [if_neg hki] at hk
        exact h1 k hk
    · intro k hk
      dsimp only at hk ⊢
      have hpk := h2 k hk
      by_cases hki : k = i
      · subst hki
        rw [hstart] at hpk
        exact absurd hpk (by simp)
      · rw [if_neg hki]
        exact hpk
    · dsimp only
      rw [h3]
      constructor
      · rintro ⟨k, hk⟩
        by_cases hki : k = i
        · subst hki
          rw [hstart] at hk
          exact absurd hk (by simp)
        · exact ⟨k, by rw [if_neg hki]; exact hk⟩
      · rintro ⟨k, hk⟩
        by_cases hki : k = i
        · subst hki; simp at hk
        · rw [if_neg hki] at hk
          exact ⟨k, hk⟩
    · intro k l hk hl
      dsimp only at hk hl
      by_cases hki : k = i
      · subst hki; simp at hk
      · by_cases hli : l = i
        · subst hli; simp at hl
        · rw [if_neg hki] at hk
          rw [if_neg hli] at hl
          exact h4 k l hk hl
    · intro k hk
      dsimp only at hk ⊢
      by_cases hki : k = i
      · subst hki; simp at hk
      · rw [if_neg hki] at hk
        exact h5 k hk
  | fastPath i hstart hstore =>
    refine ⟨?_, ?_, ?_, ?_, ?_⟩
    · intro k hk
      dsimp only at hk ⊢
      by_cases hki : k = i
      · subst hki; simp at hk
      · rw [if_neg hki] at hk
        exact h1 k hk
    · intro k hk
      dsimp only at hk ⊢
      have hpk := h2 k hk
      by_cases hki : k = i
      · subst hki
        rw [hstart] at hpk
        exact absurd hpk (by simp)
      · rw [if_neg hki]
        exact hpk
    · dsimp only
      rw [h3]
      constructor
      · rintro ⟨k, hk⟩
        by_cases hki : k = i
        · subst hki
          rw [hstart] at hk
          exact absurd hk (by simp)
        · exact ⟨k, by rw [if_neg hki]; exact hk⟩
      · rintro ⟨k, hk⟩
        by_cases hki : k = i
        · subst hki; simp at hk
        · rw [if_neg hki] at hk
          exact ⟨k, hk⟩
    · intro k l hk hl
      dsimp only at hk hl
      by_cases hki : k = i
      · subst hki; simp at hk
      · by_cases hli : l = i
        · subst hli; simp at hl
        · rw [if_neg hki] at hk
          rw [if_neg hli] at hl
          exact h4 k l hk hl
    · intro k hk
      dsimp only at hk ⊢
      exact hstore
  | finish i hint =>
    have hnoother : ∀ k, k ≠ i → s.proc k ≠ ProcPhase.interactive := by
      intro k hki hk
      have hk' := (h1 k hk).1
      have hi' := (h1 i hint).1
      rw [hk'] at hi'
      exact hki (Option.some.inj hi')
    have hnodone : ∀ k, s.proc k ≠ ProcPhase.doneInteractive := by
      intro k hk
      have := h3.mpr ⟨k, hk⟩
      rw [(h1 i hint).2] at this
      exact absurd this (by simp)
    refine ⟨?_, ?_, ?_, ?_, ?_⟩
    · intro k hk
      dsimp only at hk ⊢
      by_cases hki : k = i
      · subst hki; simp at hk
      · rw [if_neg hki] at hk
        exact absurd hk (hnoother k hki)
    · intro k hk
      dsimp only at hk
      exact absurd hk (by simp)
    · dsimp only
      constructor
      · intro _
        exact ⟨i, by simp⟩
      · intro _
        rfl
    · intro k l hk hl
      dsimp only at hk hl
      by_cases hki : k = i
      · by_cases hli : l = i
        · rw [hki, hli]
        · rw [if_neg hli] at hl
          exact absurd hl (hnodone l)
      · rw [if_neg hki] at hk
        exact absurd hk (hnodone k)
    · intro k hk
      rfl
  | observe i hwait hstore =>
    refine ⟨?_, ?_, ?_, ?_, ?_⟩
    · intro k hk
      dsimp only at hk ⊢
      by_cases hki : k = i
      · subst hki; simp at hk
      · rw [if_neg hki] at hk
        exact h1 k hk
    · intro k hk
      dsimp only at hk ⊢
      have hpk := h2 k hk
      by_cases hki : k = i
      · subst hki
        rw [hwait] at hpk
        exact absurd hpk (by simp)
      · rw [if_neg hki]
        exact hpk
    · dsimp only
      rw [h3]
      constructor
      · rintro ⟨k, hk⟩
        by_cases hki : k = i
        · subst hki
          rw [hwait] at hk
          exact absurd hk (by simp)
        · exact ⟨k, by rw [if_neg hki]; exact hk⟩
      · rintro ⟨k, hk⟩
        by_cases hki : k = i
        · subst hki; simp at hk
        · rw [if_neg hki] at hk
          exact ⟨k, hk⟩
    · intro k l hk hl
      dsimp only at hk hl
      by_cases hki : k = i
      · subst hki; simp at hk
      · by_cases hli : l = i
        · subst hli; simp at hl
        · rw [if_neg hki] at hk
          rw [if_neg hli] at hl
          exact h4 k l hk hl
    · intro k hk
      dsimp only at hk ⊢
      exact hstore

theorem coordInv_reachable {n : Nat} {s : CoordState n} (h : CoordReachable s) :
    CoordInv s := by
  induction h with
  | init => exact coordInv_init n
  | step hr hstep ih => exact coordInv_step ih hstep

/-- Claim C1: across all local processes targeting the same remote server,
at most one interactive authorization flow executes at a time, and for N
concurrent processes starting against an uninitialized server exactly one
performs the browser-based interactive flow while the other N-1 obtain the
stored TokenSet without opening a browser.  In every reachable state of the
coordination model, at most one process is in (or has completed) the
interactive flow; when every process has finished, exactly one finished
interactively and all others read the token from the store. -/
theorem single_interactive_authorization {n : Nat} (s : CoordState n)
    (hreach : CoordReachable s) :
    (∀ i j : Fin n,
       (s.proc i = .interactive ∨ s.proc i = .doneInteractive) →
       (s.proc j = .interactive ∨ s.proc j = .doneInteractive) → i = j) ∧
    ((∀ i, s.proc i = .doneInteractive ∨ s.proc i = .doneFromStore) → 0 < n →
       ∃ i, s.proc i = .doneInteractive ∧ ∀ j, j ≠ i → s.proc j = .doneFromStore) := by
  obtain ⟨h1, h2, h3, h4, h5⟩ := coordInv_reachable hreach
  constructor
  · rintro i j (hi | hi) (hj | hj)
    · have := (h1 i hi).1
      rw [(h1 j hj).1] at this
      exact (Option.some.inj this).symm
    · have hf := (h1 i hi).2
      have ht := h3.mpr ⟨j, hj⟩
      rw [hf] at ht
      exact absurd ht (by simp)
    · have hf := (h1 j hj).2
      have ht := h3.mpr ⟨i, hi⟩
      rw [hf] at ht
      exact absurd ht (by simp)
    · exact h4 i j hi hj
  · intro hall hn
    rcases hall ⟨0, hn⟩ with h0 | h0
    · refine ⟨⟨0, hn⟩, h0, fun j hj => ?_⟩
      rcases hall j with hj' | hj'
      · exact absurd (h4 j ⟨0, hn⟩ hj' h0) hj
      · exact hj'
    · have ht := h5 ⟨0, hn⟩ h0
      rcases h3.mp ht with ⟨k, hk⟩
      refine ⟨k, hk, fun j hj => ?_⟩
      rcases hall j with hj' | hj'
      · exact absurd (h4 j k hj' hk) hj
      · exact hj'

/-- Witness for C1: a concrete two-process run in which process 0 acquires
the lock, process 1 finds it busy and waits, process 0 finishes and stores
the token, process 1 observes it; exactly one process finished
interactively. -/
theorem single_interactive_authorization_witness :
    ∃ i : Fin 2,
      ({ proc := fun j : Fin 2 => if j = 0 then ProcPhase.doneInteractive
                                  else ProcPhase.doneFromStore,
         lock := none, tokenStored := true } : CoordState 2).proc i
        = ProcPhase.doneInteractive ∧
      ∀ j, j ≠ i →
        ({ proc := fun j : Fin 2 => if j = 0 then ProcPhase.doneInteractive
                                    else ProcPhase.doneFromStore,
           lock := none, tokenStored := true } : CoordState 2).proc j
          = ProcPhase.doneFromStore := by
  have r1 : CoordReachable
      ({ proc := fun j : Fin 2 => if j = 0 then ProcPhase.interactive else ProcPhase.start,
         lock := some 0, tokenStored := false } : CoordState 2) :=
    .step .init (.acquire _ 0 rfl rfl rfl)
  have r2 : CoordReachable
      ({ proc := fun j : Fin 2 => if j = 1 then ProcPhase.waiting
                                  else (if j = 0 then ProcPhase.interactive
                                        else ProcPhase.start),
         lock := some 0, tokenStored := false } : CoordState 2) :=
    .step r1 (.lockBusy _ 1 0 rfl rfl)
  have r3 : CoordReachable
      ({ proc := fun j : Fin 2 => if j = 0 then ProcPhase.doneInteractive
                                  else (if j = 1 then ProcPhase.waiting
                                        else (if j = 0 then ProcPhase.interactive
                                              else ProcPhase.start)),
         lock := none, tokenStored := true } : CoordState 2) :=
    .step r2 (.finish _ 0 rfl)
  have r4 : CoordReachable
      ({ proc := fun j : Fin 2 => if j = 1 then ProcPhase.doneFromStore
                                  else (if j = 0 then ProcPhase.doneInteractive
                                        else (if j = 1 then ProcPhase.waiting
                                              else (if j = 0 then ProcPhase.interactive
                                                    else ProcPhase.start))),
         lock := none, tokenStored := true } : CoordState 2) :=
    .step r3 (.observe _ 1 rfl rfl)
  have hstates :
      ({ proc := fun j : Fin 2 => if j = 1 then ProcPhase.doneFromStore
                                  else (if j = 0 then ProcPhase.doneInteractive
                                        else (if j = 1 then ProcPhase.waiting
                                              else (if j = 0 then ProcPhase.interactive
                                                    else ProcPhase.start))),
         lock := none, tokenStored := true } : CoordState 2)
      = ({ proc := fun j : Fin 2 => if j = 0 then ProcPhase.doneInteractive
                                    else ProcPhase.doneFromStore,
           lock := none, tokenStored := true } : CoordState 2) := by
    have hf : (fun j : Fin 2 => if j = 1 then ProcPhase.doneFromStore
                                else (if j = 0 then ProcPhase.doneInteractive
                                      else (if j = 1 then ProcPhase.waiting
                                            else (if j = 0 then ProcPhase.interactive
                                                  else ProcPhase.start))))
        = (fun j : Fin 2 => if j = 0 then ProcPhase.doneInteractive
                            else ProcPhase.doneFromStore) := by
      funext j
      fin_cases j <;> rfl
    rw [hf]
  have r4' : CoordReachable
      ({ proc := fun j : Fin 2 => if j = 0 then ProcPhase.doneInteractive
                                  else ProcPhase.doneFromStore,
         lock := none, tokenStored := true } : CoordState 2) := hstates ▸ r4
  exact (single_interactive_authorization _ r4').2 (by decide) (by decide)

/-- Claim C2: with MCP_REMOTE_NOFIX set, defaultOAuthUrlFixer returns null
for every request context, so with it as the sole registered hook every
request URL reaches the network layer unmodified — the interceptor passes
the original input object through. -/
theorem nofix_disables_url_fixer :
    (∀ ctx : HttpRequestContext, defaultOAuthUrlFixer true ctx = none) ∧
    (∀ ctx : HttpRequestContext, applyRequestHooks [oauthUrlFixerHook true] ctx = ctx.url) ∧
    (∀ (Input : Type) (toStr : Input → Str) (osu : Option Str) (input : Input)
       (init : Option RequestInit),
       networkInput toStr [oauthUrlFixerHook true] osu input init = Sum.inl input) := by
  have hfix : ∀ ctx : HttpRequestContext, defaultOAuthUrlFixer true ctx = none := by
    intro ctx
    cases h : ctx.originalServerUrl with
    | none => simp [defaultOAuthUrlFixer, h]
    | some osu => simp [defaultOAuthUrlFixer, h]
  have happ : ∀ ctx : HttpRequestContext,
      applyRequestHooks [oauthUrlFixerHook true] ctx = ctx.url := by
    intro ctx
    simp [applyRequestHooks, requestHookStep, oauthUrlFixerHook, hfix]
  refine ⟨hfix, happ, ?_⟩
  intro Input toStr osu input init
  simp [networkInput, happ, mkRequestContext]

/-- Claim C3: with the hook enabled and an original server URL configured,
a request URL of the double-nested form
scheme://domain/.well-known/oauth-authorization-server/serverPath/.well-known/oauth-authorization-server
is rewritten to the single-nested
scheme://domain/serverPath/.well-known/oauth-authorization-server. -/
theorem fixer_rewrites_double_wellknown
    (ctx : HttpRequestContext) (osu : Str) (o : JsURL) (sch domain serverPath : Str)
    (hsch : sch = "http://".data ∨ sch = "https://".data)
    (hdom : domain ≠ []) (hdomc : ∀ c ∈ domain, c ≠ '/' ∧ c ≠ '?' ∧ c ≠ '#')
    (hsp : serverPath ≠ []) (hspc : ∀ c ∈ serverPath, c ≠ '\n' ∧ c ≠ '\r')
    (hosu : parseURL osu = some o)
    (hctxo : ctx.originalServerUrl = some osu)
    (hctxu : ctx.url = sch ++ domain ++ "/.well-known/oauth-authorization-server/".data
      ++ serverPath ++ "/.well-known/oauth-authorization-server".data) :
    defaultOAuthUrlFixer false ctx
      = some (sch ++ domain ++ "/".data ++ serverPath
          ++ "/.well-known/oauth-authorization-server".data) := by
  have hsep : "/.well-known/oauth-authorization-server/".data = wkSuffix ++ ['/'] := rfl
  have hwkd : "/.well-known/oauth-authorization-server".data = wkSuffix := rfl
  have hurl' : ctx.url = sch ++ (domain ++ ((wkSuffix ++ ['/']) ++ (serverPath ++ wkSuffix))) := by
    rw [hctxu, hsep, hwkd]
    simp [List.append_assoc]
  have hmid : ∀ Z : Str, (wkSuffix ++ ['/']) ++ Z
      = '/' :: (".well-known/oauth-authorization-server/".data ++ Z) := fun Z => rfl
  have hdomc1 : ∀ c ∈ domain, c ≠ '/' := fun c hc => (hdomc c hc).1
  have hps : (parseURL ctx.url).isSome = true := by
    rw [hurl', hmid]
    exact parseURL_isSome sch domain _ hsch hdom hdomc
  rcases Option.isSome_iff_exists.mp hps with ⟨u, hu⟩
  have hfd : fixDouble ctx.url = some ((sch ++ domain) ++ ['/'] ++ serverPath ++ wkSuffix) := by
    have hhas : hasSubstr ctx.url (wkSuffix ++ ['/']) = true := by
      rw [hurl', ← List.append_assoc]
      exact hasSubstr_of_append _ _ _
    have hsuf : wkSuffix.isSuffixOf ctx.url = true := by
      have : sch ++ (domain ++ ((wkSuffix ++ ['/']) ++ (serverPath ++ wkSuffix)))
           = (sch ++ (domain ++ ((wkSuffix ++ ['/']) ++ serverPath))) ++ wkSuffix := by
        simp [List.append_assoc]
      rw [hurl', this]
      exact isSuffixOf_append_self _ _
    unfold fixDouble
    rw [if_pos ⟨hhas, hsuf⟩]
    rw [hurl', matchDoubleWellKnown_eval sch domain serverPath hsch hdom hdomc1 hsp hspc]
  simp only [defaultOAuthUrlFixer, hctxo, parse_some_ne_nil hosu, hosu, hu,
    Bool.false_eq_true, if_false, hfd]
  rfl

/-- Witness for C3: a concrete double-nested discovery URL is rewritten to
its single-nested equivalent. -/
theorem fixer_rewrites_double_wellknown_witness :
    defaultOAuthUrlFixer false
        { url := "https://host.example/.well-known/oauth-authorization-server/svc/api/.well-known/oauth-authorization-server".data,
          method := "GET".data, headers := [],
          originalServerUrl := some ("https://host.example/calc/mcp".data),
          isOAuthRelated := true }
      = some ("https://host.example/svc/api/.well-known/oauth-authorization-server".data) :=
  fixer_rewrites_double_wellknown _ ("https://host.example/calc/mcp".data) _
    ("https://".data) ("host.example".data) ("svc/api".data)
    (Or.inr rfl) (by decide) (by decide) (by decide) (by decide) rfl rfl (by decide)

/-- Claim C4: with zero hooks registered in all three registries the
interceptor behaves identically to the original fetch: applyRequestHooks
returns the URL unchanged, applyResponseTransformHooks returns its context
unchanged, and the intercepted fetch forwards the original input and init
to the underlying fetch and returns its result unaltered. -/
theorem zero_hooks_identity :
    (∀ ctx : HttpRequestContext, applyRequestHooks [] ctx = ctx.url) ∧
    (∀ ctx : HttpResponseContext, applyResponseTransformHooks [] ctx = ctx) ∧
    (∀ (Input ε : Type) (toStr : Input → Str) (osu : Option Str)
       (originalFetch : Input ⊕ Str → Option RequestInit → Except ε Response)
       (d : Nat) (input : Input) (init : Option RequestInit),
       interceptedFetch toStr [] [] [] osu originalFetch d input init
         = originalFetch (Sum.inl input) init) := by
  refine ⟨fun ctx => rfl, fun ctx => rfl, ?_⟩
  intro Input ε toStr osu f d input init
  have hni : networkInput toStr ([] : List RequestHook) osu input init = Sum.inl input := by
    simp [networkInput, applyRequestHooks, mkRequestContext]
  simp only [interceptedFetch, hni]
  cases h : f (Sum.inl input) init with
  | error e => rfl
  | ok r => simp [applyResponseTransformHooks, applyResponseHooks]

/-- Claim C5: every message fed into one side of the bridge is observed on
the other side in the same order and unchanged, except the local side's
first initialization message, which is forwarded augmented with proxy
identity metadata while keeping all original fields. -/
theorem proxy_forwarding :
    (∀ msgs : List ProxyMessage, forwardRemoteMessages msgs = msgs) ∧
    (∀ msgs : List ProxyMessage, (forwardLocalMessages msgs).length = msgs.length) ∧
    (∀ msgs : List ProxyMessage, (∀ m ∈ msgs, isInitMessage m = false) →
       forwardLocalMessages msgs = msgs) ∧
    (∀ (pre post : List ProxyMessage) (m : ProxyMessage),
       (∀ x ∈ pre, isInitMessage x = false) → isInitMessage m = true →
       forwardLocalMessages (pre ++ m :: post) = pre ++ augmentClientInfo m :: post) ∧
    (∀ m : ProxyMessage, (augmentClientInfo m).id = m.id ∧
       (augmentClientInfo m).method = m.method ∧
       (augmentClientInfo m).fields.take m.fields.length = m.fields) := by
  refine ⟨fun _ => rfl, ?_, ?_, ?_, ?_⟩
  · intro msgs
    induction msgs with
    | nil => rfl
    | cons m rest ih =>
      by_cases h : isInitMessage m = true
      · simp [forwardLocalMessages, h]
      · simp only [Bool.not_eq_true] at h
        simp [forwardLocalMessages, h, ih]
  · intro msgs hall
    induction msgs with
    | nil => rfl
    | cons m rest ih =>
      have hm : isInitMessage m = false := hall m (by simp)
      simp only [forwardLocalMessages, hm, Bool.false_eq_true, if_false]
      rw [ih (fun x hx => hall x (by simp [hx]))]
  · intro pre post m hpre hm
    induction pre with
    | nil =>
      simp only [List.nil_append, forwardLocalMessages, hm, if_true]
    | cons a pre' ih =>
      have ha : isInitMessage a = false := hpre a (by simp)
      simp only [List.cons_append, forwardLocalMessages, ha, Bool.false_eq_true, if_false,
        List.append_eq]
      rw [ih (fun x hx => hpre x (by simp [hx]))]
  · intro m
    exact ⟨rfl, rfl, List.take_left m.fields proxyMetadata⟩

/-- Witness for C5: a two-message local stream whose first message is the
initialization message; it is forwarded augmented, the second verbatim. -/
theorem proxy_forwarding_witness :
    forwardLocalMessages
        [{ id := some 0, method := some ("initialize".data),
           fields := [("clientName".data, "local".data)] },
         { id := some 1, method := some ("ping".data), fields := [] }]
      = [{ id := some 0, method := some ("initialize".data),
           fields := [("clientName".data, "local".data)] ++ proxyMetadata },
         { id := some 1, method := some ("ping".data), fields := [] }] :=
  proxy_forwarding.2.2.2.1 []
    [{ id := some 1, method := some ("ping".data), fields := [] }]
    { id := some 0, method := some ("initialize".data),
      fields := [("clientName".data, "local".data)] }
    (fun x hx => absurd hx (List.not_mem_nil x)) (by decide)

/-- Counterexample to claim C6 as stated: a hook returning the empty string
— a non-null string different from the current URL — does not replace the
current URL, because the source tests JavaScript truthiness
(`modifiedUrl && ...`) and the empty string is falsy. -/
theorem request_hook_empty_string_not_applied :
    applyRequestHooks [fun _ => HookOutcome.ok (some [])]
        { url := "http://example.com/a".data, method := "GET".data, headers := [],
          originalServerUrl := none, isOAuthRelated := false }
      = "http://example.com/a".data
    ∧ ([] : Str) ≠ "http://example.com/a".data := by
  constructor
  · decide
  · decide

/-- Claim C6 (amended): applyRequestHooks folds the registered hooks over
the URL in registration order; each hook receives the context with the URL
produced by the preceding hooks; a hook returning null, the current URL,
the empty string, or throwing leaves the current URL unchanged; a hook
returning a different non-null, non-empty string replaces it; and the
interceptor's network call uses exactly the fold's final URL. -/
theorem request_hooks_fold :
    (∀ (hs1 hs2 : List RequestHook) (ctx : HttpRequestContext),
       applyRequestHooks (hs1 ++ hs2) ctx
         = applyRequestHooks hs2 { ctx with url := applyRequestHooks hs1 ctx }) ∧
    (∀ (h : RequestHook) (ctx : HttpRequestContext) (u : Str),
       h ctx = .ok (some u) → u ≠ [] → u ≠ ctx.url → applyRequestHooks [h] ctx = u) ∧
    (∀ (h : RequestHook) (ctx : HttpRequestContext),
       (h ctx = .ok none ∨ h ctx = .ok (some ctx.url) ∨ h ctx = .ok (some [])
        ∨ h ctx = .threw) →
       applyRequestHooks [h] ctx = ctx.url) ∧
    (∀ (Input : Type) (toStr : Input → Str) (hooks : List RequestHook) (osu : Option Str)
       (input : Input) (init : Option RequestInit),
       networkInput toStr hooks osu input init
         = if applyRequestHooks hooks (mkRequestContext osu (toStr input) init) ≠ toStr input
           then Sum.inr (applyRequestHooks hooks (mkRequestContext osu (toStr input) init))
           else Sum.inl input) := by
  refine ⟨?_, ?_, ?_, ?_⟩
  · intro hs1 hs2 ctx
    unfold applyRequestHooks
    rw [List.foldl_append]
    have hctx : requestHookStep { ctx with url := List.foldl (requestHookStep ctx) ctx.url hs1 }
        = requestHookStep ctx := by
      funext u h
      rfl
    rw [hctx]
  · intro h ctx u hh hu1 hu2
    unfold applyRequestHooks
    simp only [List.foldl_cons, List.foldl_nil, requestHookStep]
    rw [show ({ ctx with url := ctx.url } : HttpRequestContext) = ctx from rfl, hh]
    show (if u ≠ [] ∧ u ≠ ctx.url then u else ctx.url) = u
    rw [if_pos ⟨hu1, hu2⟩]
  · intro h ctx hcase
    unfold applyRequestHooks
    simp only [List.foldl_cons, List.foldl_nil, requestHookStep]
    rw [show ({ ctx with url := ctx.url } : HttpRequestContext) = ctx from rfl]
    rcases hcase with hh | hh | hh | hh <;> rw [hh]
    · show (if ctx.url ≠ [] ∧ ctx.url ≠ ctx.url then ctx.url else ctx.url) = ctx.url
      rw [if_neg (fun hc => hc.2 rfl)]
    · show (if ([] : Str) ≠ [] ∧ ([] : Str) ≠ ctx.url then ([] : Str) else ctx.url) = ctx.url
      rw [if_neg (fun hc => hc.1 rfl)]
  · intro Input toStr hooks osu input init
    rfl

/-- Witness for C6 (amended): a hook returning a different non-null,
non-empty URL replaces the current URL. -/
theorem request_hooks_fold_witness :
    applyRequestHooks [fun _ => HookOutcome.ok (some ("http://replacement.example/".data))]
        { url := "http://origin.example/".data, method := "GET".data, headers := [],
          originalServerUrl := none, isOAuthRelated := false }
      = "http://replacement.example/".data :=
  request_hooks_fold.2.1 _ _ _ rfl (by decide) (by decide)

/-- Counterexample to claim C7 as stated: a same-origin request URL that
contains an OAuth discovery path but has the double-nested .well-known form
is rewritten by the earlier double-well-known rule, not relocated under the
gateway path (/calc) and not left unchanged. -/
theorem same_origin_discovery_not_always_gateway_relocated :
    defaultOAuthUrlFixer false
        { url := "https://gw.example.com/.well-known/oauth-authorization-server/svc/api/.well-known/oauth-authorization-server".data,
          method := "GET".data, headers := [],
          originalServerUrl := some ("https://gw.example.com/calc/mcp".data),
          isOAuthRelated := true }
      = some ("https://gw.example.com/svc/api/.well-known/oauth-authorization-server".data)
    ∧ ("https://gw.example.com/calc/".data).isPrefixOf
        ("https://gw.example.com/svc/api/.well-known/oauth-authorization-server".data) = false
    ∧ ("https://gw.example.com/svc/api/.well-known/oauth-authorization-server".data : Str)
        ≠ "https://gw.example.com/.well-known/oauth-authorization-server/svc/api/.well-known/oauth-authorization-server".data := by
  refine ⟨by decide, by decide, by decide⟩

/-- Claim C7 (amended): with the hook enabled and an original server URL
configured, a request URL whose origin equals the server URL's origin and
which contains an OAuth discovery path, provided it is not of the
double-nested .well-known form (handled by the earlier rule) and the
relocated URL differs from the request URL, is rewritten to place the
well-known path (from the first /.well-known/ segment, query and fragment
excluded) under the gateway path — the server URL's path with its last
segment removed — with the original query string preserved. -/
theorem same_origin_discovery_relocation
    (ctx : HttpRequestContext) (osu : Str) (o r : JsURL) (wk : Str)
    (hosu : parseURL osu = some o)
    (hr : parseURL ctx.url = some r)
    (hctxo : ctx.originalServerUrl = some osu)
    (horigin : r.origin = o.origin)
    (hdisc : hasSubstr ctx.url "/.well-known/oauth-".data = true ∨
             hasSubstr ctx.url "/.well-known/openid-configuration".data = true)
    (hnd : fixDouble ctx.url = none)
    (hwk : wellKnownTail? ctx.url = some wk)
    (hdiff : o.origin ++ gatewayOfServerPath o.pathname ++ ['/'] ++ wk ++ r.search ≠ ctx.url) :
    defaultOAuthUrlFixer false ctx
      = some (o.origin ++ gatewayOfServerPath o.pathname ++ ['/'] ++ wk ++ r.search) := by
  have hso : fixSameOriginDiscovery o r ctx.url
      = some (o.origin ++ gatewayOfServerPath o.pathname ++ ['/'] ++ wk ++ r.search) := by
    unfold fixSameOriginDiscovery
    rw [if_pos ⟨horigin, hdisc⟩, hwk]
    show (if o.origin ++ gatewayOfServerPath o.pathname ++ ['/'] ++ wk ++ r.search ≠ ctx.url
          then some (o.origin ++ gatewayOfServerPath o.pathname ++ ['/'] ++ wk ++ r.search)
          else none)
        = some (o.origin ++ gatewayOfServerPath o.pathname ++ ['/'] ++ wk ++ r.search)
    rw [if_pos hdiff]
  simp only [defaultOAuthUrlFixer, hctxo, parse_some_ne_nil hosu, hosu, hr,
    Bool.false_eq_true, if_false, hnd, hso]

/-- Witness for C7 (amended): a root-level same-origin discovery URL with a
query string is relocated under the gateway path with the query preserved. -/
theorem same_origin_discovery_relocation_witness :
    defaultOAuthUrlFixer false
        { url := "https://gw.example.com/.well-known/oauth-protected-resource?x=1".data,
          method := "GET".data, headers := [],
          originalServerUrl := some ("https://gw.example.com/calc/mcp".data),
          isOAuthRelated := true }
      = some ("https://gw.example.com/calc/.well-known/oauth-protected-resource?x=1".data) :=
  same_origin_discovery_relocation
    { url := "https://gw.example.com/.well-known/oauth-protected-resource?x=1".data,
      method := "GET".data, headers := [],
      originalServerUrl := some ("https://gw.example.com/calc/mcp".data),
      isOAuthRelated := true }
    ("https://gw.example.com/calc/mcp".data) _ _
    (".well-known/oauth-protected-resource".data)
    rfl rfl rfl rfl (Or.inl (by decide)) (by decide) (by decide) (by decide)

/-- Claim C8: a hook that throws never aborts the HTTP call — the registry
catches the error, the throwing hook's output is ignored, the remaining
hooks still run on the last good URL/context, and the result is exactly as
if the failing hook had returned null; response hooks after a throwing
hook are still invoked on the same context. -/
theorem hook_errors_are_caught :
    (∀ (hs1 hs2 : List RequestHook) (h : RequestHook) (ctx : HttpRequestContext),
       h { ctx with url := applyRequestHooks hs1 ctx } = .threw →
       applyRequestHooks (hs1 ++ h :: hs2) ctx
         = applyRequestHooks (hs1 ++ (fun _ => HookOutcome.ok none) :: hs2) ctx) ∧
    (∀ (hs1 hs2 : List ResponseTransformHook) (h : ResponseTransformHook)
       (ctx : HttpResponseContext),
       h (applyResponseTransformHooks hs1 ctx) = .threw →
       applyResponseTransformHooks (hs1 ++ h :: hs2) ctx
         = applyResponseTransformHooks (hs1 ++ (fun _ => HookOutcome.ok none) :: hs2) ctx) ∧
    (∀ (hs1 hs2 : List ResponseHook) (h : ResponseHook) (ctx : HttpResponseContext),
       applyResponseHooks (hs1 ++ h :: hs2) ctx
         = applyResponseHooks hs1 ctx ++ h ctx :: applyResponseHooks hs2 ctx) := by
  refine ⟨?_, ?_, ?_⟩
  · intro hs1 hs2 h ctx hthrow
    unfold applyRequestHooks at *
    rw [List.foldl_append, List.foldl_append, List.foldl_cons, List.foldl_cons]
    have h1 : requestHookStep ctx (List.foldl (requestHookStep ctx) ctx.url hs1) h
        = List.foldl (requestHookStep ctx) ctx.url hs1 := by
      simp only [requestHookStep, hthrow]
    have h2 : requestHookStep ctx (List.foldl (requestHookStep ctx) ctx.url hs1)
        (fun _ => HookOutcome.ok none) = List.foldl (requestHookStep ctx) ctx.url hs1 := rfl
    rw [h1, h2]
  · intro hs1 hs2 h ctx hthrow
    unfold applyResponseTransformHooks at *
    rw [List.foldl_append, List.foldl_append, List.foldl_cons, List.foldl_cons]
    have h1 : transformStep (List.foldl transformStep ctx hs1) h
        = List.foldl transformStep ctx hs1 := by
      simp only [transformStep, hthrow]
    have h2 : transformStep (List.foldl transformStep ctx hs1)
        (fun _ => HookOutcome.ok none) = List.foldl transformStep ctx hs1 := rfl
    rw [h1, h2]
  · intro hs1 hs2 h ctx
    simp [applyResponseHooks]

/-- Witness for C8: a throwing request hook is equivalent to a null-returning
one, and the hook registered after it still rewrites the URL. -/
theorem hook_errors_are_caught_witness :
    applyRequestHooks
        ([] ++ (fun _ => HookOutcome.threw)
           :: [fun _ => HookOutcome.ok (some ("http://replacement.example/x".data))])
        { url := "http://origin.example/".data, method := "GET".data, headers := [],
          originalServerUrl := none, isOAuthRelated := false }
      = applyRequestHooks
          ([] ++ (fun _ => HookOutcome.ok none)
             :: [fun _ => HookOutcome.ok (some ("http://replacement.example/x".data))])
          { url := "http://origin.example/".data, method := "GET".data, headers := [],
            originalServerUrl := none, isOAuthRelated := false }
    ∧ applyRequestHooks
        ([] ++ (fun _ => HookOutcome.threw)
           :: [fun _ => HookOutcome.ok (some ("http://replacement.example/x".data))])
        { url := "http://origin.example/".data, method := "GET".data, headers := [],
          originalServerUrl := none, isOAuthRelated := false }
      = "http://replacement.example/x".data :=
  ⟨hook_errors_are_caught.1 [] [fun _ => HookOutcome.ok (some ("http://replacement.example/x".data))]
      (fun _ => HookOutcome.threw)
      { url := "http://origin.example/".data, method := "GET".data, headers := [],
        originalServerUrl := none, isOAuthRelated := false } rfl,
   by decide⟩

/-- Counterexample to claim C9 as stated: for the `string[][]` array form
of HeadersInit, `Object.entries` yields decimal index keys, the
`authorization` check compares against "0" and never fires, and the
authorization row — secret value included — is stored unredacted, so two
collections differing only in the authorization value produce different
parseHeaders outputs in the context handed to hooks and logs. -/
theorem array_form_authorization_not_redacted :
    parseHeaders (some (HeadersInit.array
        [("Authorization".data, "Bearer secret-token-1".data)]))
      ≠ parseHeaders (some (HeadersInit.array
          [("Authorization".data, "Bearer secret-token-2".data)]))
    ∧ parseHeaders (some (HeadersInit.array
        [("Authorization".data, "Bearer secret-token-1".data)]))
      = [("0".data, JsValue.arr ["Authorization".data, "Bearer secret-token-1".data])] := by
  exact ⟨by decide, by decide⟩

/-- Claim C9 (amended): header redaction is value-independent for the
Headers-object and plain-record forms of the request headers — for any two
collections of the same such form differing only in the value of an
authorization header (any capitalization), parseHeaders produces identical
outputs, mapping that key to [REDACTED] and every other key to its given
value; likewise redactResponseHeaders for the authorization and set-cookie
response headers.  (For the string[][] array form, Object.entries yields
index keys and the authorization value is stored unredacted.) -/
theorem header_redaction_value_independent :
    (∀ (l1 l2 : List (Str × Str)) (k v w : Str), toLowerStr k = "authorization".data →
       parseHeaders (some (HeadersInit.headersObj (l1 ++ (k, v) :: l2)))
         = parseHeaders (some (HeadersInit.headersObj (l1 ++ (k, w) :: l2)))) ∧
    (∀ (l1 l2 : List (Str × Str)) (k v w : Str), toLowerStr k = "authorization".data →
       parseHeaders (some (HeadersInit.record (l1 ++ (k, v) :: l2)))
         = parseHeaders (some (HeadersInit.record (l1 ++ (k, w) :: l2)))) ∧
    (∀ (entries : List (Str × Str)) (k v : Str), (k, v) ∈ entries →
       toLowerStr k = "authorization".data →
       (k, JsValue.str ("[REDACTED]".data))
           ∈ parseHeaders (some (HeadersInit.headersObj entries)) ∧
       (k, JsValue.str ("[REDACTED]".data))
           ∈ parseHeaders (some (HeadersInit.record entries))) ∧
    (∀ (entries : List (Str × Str)) (k v : Str), (k, v) ∈ entries →
       toLowerStr k ≠ "authorization".data →
       (k, JsValue.str v) ∈ parseHeaders (some (HeadersInit.headersObj entries)) ∧
       (k, JsValue.str v) ∈ parseHeaders (some (HeadersInit.record entries))) ∧
    (∀ (l1 l2 : List (Str × Str)) (k v w : Str),
       toLowerStr k = "authorization".data ∨ toLowerStr k = "set-cookie".data →
       redactResponseHeaders (l1 ++ (k, v) :: l2)
         = redactResponseHeaders (l1 ++ (k, w) :: l2)) ∧
    (∀ (headers : List (Str × Str)) (k v : Str), (k, v) ∈ headers →
       toLowerStr k = "authorization".data ∨ toLowerStr k = "set-cookie".data →
       (k, "[REDACTED]".data) ∈ redactResponseHeaders headers) := by
  refine ⟨?_, ?_, ?_, ?_, ?_, ?_⟩
  · intro l1 l2 k v w hk
    simp [parseHeaders, hk]
  · intro l1 l2 k v w hk
    simp [parseHeaders, hk]
  · intro entries k v hmem hk
    constructor <;>
      exact List.mem_map.mpr ⟨(k, v), hmem, by simp [hk]⟩
  · intro entries k v hmem hk
    constructor <;>
      exact List.mem_map.mpr ⟨(k, v), hmem, by simp [hk]⟩
  · intro l1 l2 k v w hk
    rcases hk with hk | hk <;> simp [redactResponseHeaders, hk]
  · intro headers k v hmem hk
    refine List.mem_map.mpr ⟨(k, v), hmem, ?_⟩
    rcases hk with hk | hk <;> simp [hk]

/-- Witness for C9 (amended): two capitalized Authorization headers of the
Headers-object form with different secret values produce identical redacted
outputs. -/
theorem header_redaction_value_independent_witness :
    parseHeaders (some (HeadersInit.headersObj
        [("Authorization".data, "Bearer secret-token-1".data)]))
      = parseHeaders (some (HeadersInit.headersObj
          [("Authorization".data, "Bearer secret-token-2".data)]))
    ∧ ("Authorization".data, JsValue.str ("[REDACTED]".data))
        ∈ parseHeaders (some (HeadersInit.headersObj
            [("Authorization".data, "Bearer secret-token-1".data)])) :=
  ⟨header_redaction_value_independent.1 [] [] ("Authorization".data)
      ("Bearer secret-token-1".data) ("Bearer secret-token-2".data) (by decide),
   (header_redaction_value_independent.2.2.1 _ ("Authorization".data)
      ("Bearer secret-token-1".data) (by decide) (by decide)).1⟩

/-- Claim C10: default405To404Transform replaces exactly the responses of
status 405 by a 404 'Not Found' response preserving body and headers,
returns null for every other status, and with it installed as the response
transform hook a caller of the intercepted fetch never observes a 405. -/
theorem transform_405_to_404_behavior :
    (∀ ctx : HttpResponseContext, ctx.status = 405 →
       default405To404Transform ctx
         = some { status := 404, statusText := "Not Found".data,
                  headers := ctx.response.headers, body := ctx.response.body }) ∧
    (∀ ctx : HttpResponseContext, ctx.status ≠ 405 → default405To404Transform ctx = none) ∧
    (∀ (Input ε : Type) (toStr : Input → Str) (requestHooks : List RequestHook)
       (responseHooks : List ResponseHook) (osu : Option Str)
       (f : Input ⊕ Str → Option RequestInit → Except ε Response) (d : Nat)
       (input : Input) (init : Option RequestInit) (r : Response),
       interceptedFetch toStr requestHooks [transform405Hook] responseHooks osu f d input init
         = .ok r → r.status ≠ 405) := by
  refine ⟨?_, ?_, ?_⟩
  · intro ctx h
    simp [default405To404Transform, h]
  · intro ctx h
    simp [default405To404Transform, h]
  · intro Input ε toStr rh rsph osu f d input init r hfetch
    simp only [interceptedFetch] at hfetch
    cases hf : f (networkInput toStr rh osu input init) init with
    | error e =>
      rw [hf] at hfetch
      exact absurd hfetch (by simp)
    | ok resp =>
      rw [hf] at hfetch
      dsimp only at hfetch
      rw [Except.ok.injEq] at hfetch
      simp only [applyResponseTransformHooks, List.foldl_cons, List.foldl_nil,
        transformStep, transform405Hook, default405To404Transform] at hfetch
      by_cases hst : resp.status = 405
      · have hne : ({ status := 404, statusText := "Not Found".data,
                      headers := resp.headers, body := resp.body } : Response) ≠ resp := by
          intro he
          have h4 := congrArg Response.status he
          dsimp only at h4
          rw [hst] at h4
          exact absurd h4 (by decide)
        rw [if_pos hst] at hfetch
        dsimp only at hfetch
        rw [if_pos hne] at hfetch
        dsimp only at hfetch
        rw [← hfetch]
        dsimp only
        decide
      · rw [if_neg hst] at hfetch
        dsimp only at hfetch
        rw [← hfetch]
        exact hst

/-- Witness for C10: the intercepted fetch with the 405-to-404 transform
installed turns a 405 response into a 404 response, which is not 405. -/
theorem transform_405_to_404_behavior_witness :
    interceptedFetch (fun _ : Unit => "http://api.example/x".data) [] [transform405Hook] []
        none
        (fun (_ : Unit ⊕ Str) (_ : Option RequestInit) =>
          (Except.ok { status := 405, statusText := "Method Not Allowed".data,
                       headers := [], body := [] } : Except Unit Response))
        0 () none
      = Except.ok { status := 404, statusText := "Not Found".data, headers := [], body := [] }
    ∧ (404 : Nat) ≠ 405 := by
  have h1 : interceptedFetch (fun _ : Unit => "http://api.example/x".data) [] [transform405Hook] []
      none
      (fun (_ : Unit ⊕ Str) (_ : Option RequestInit) =>
        (Except.ok { status := 405, statusText := "Method Not Allowed".data,
                     headers := [], body := [] } : Except Unit Response))
      0 () none
      = Except.ok { status := 404, statusText := "Not Found".data, headers := [], body := [] } := by
    rfl
  refine ⟨h1, ?_⟩
  exact transform_405_to_404_behavior.2.2 Unit Unit _ _ _ _ _ _ _ _ _ h1
